import Mathlib

/-!
Verification of the DINO-style self-distillation training core in
`src/experiments/DINO_signal.py` (UARK-AICV / ECG_SSL_12Lead).

Shallow embedding conventions:
* tensors are `List ℚ` (vectors) and `List (List ℚ)` (row-major matrices);
* real-valued steps that need `sqrt` (the L2 normalisation of the
  projection-head bottleneck) are embedded over `ℝ`;
* the distributed world is a list of per-process values; `dist.all_reduce`
  is the elementwise sum over that list;
* Python loops are rendered as structurally recursive functions or folds
  that perform the same sequence of updates.
-/

namespace DINOSignal

/-! ### Vector arithmetic (torch elementwise ops on `List ℚ`) -/

/-- Elementwise addition of two vectors (`torch.add` on equal shapes). -/
def vadd (u v : List ℚ) : List ℚ := List.zipWith (· + ·) u v

/-- Scalar multiplication of a vector (`c * tensor`). -/
def vsmul (c : ℚ) (v : List ℚ) : List ℚ := v.map (fun x => c * x)

/-- `torch.sum(m, dim=0)` for a non-empty row-major matrix: the column sum.
For the empty matrix it returns the empty vector. -/
def colSum : List (List ℚ) → List ℚ
  | [] => []
  | r :: rs => rs.foldl vadd r

/-- `dist.all_reduce` with the sum op: every process ends with the
elementwise sum of all processes' vectors. -/
def allReduce : List (List ℚ) → List ℚ
  | [] => []
  | r :: rs => rs.foldl vadd r

/-! ### `DINOLoss.update_center` (lines 190–201)

```python
@torch.no_grad()
def update_center(self, teacher_output):
    batch_center = torch.sum(teacher_output, dim=0, keepdim=True)
    dist.all_reduce(batch_center)
    batch_center = batch_center / (len(teacher_output) * dist.get_world_size())
    batch_center = batch_center / len(teacher_output)
    self.center = self.center * self.center_momentum + batch_center * (1 - self.center_momentum)
```

The world is `world : List (List (List ℚ))`, one teacher_output matrix per
process; process `p` sees its own matrix `world.getD p []`.  The
`@torch.no_grad()` decorator makes the update a pure value computation,
which is how it is embedded (no gradient state exists in the model). -/

/-- `DINOLoss.update_center` as executed on process `p`. -/
def update_center (momentum : ℚ) (world : List (List (List ℚ))) (p : ℕ)
    (center : List ℚ) : List ℚ :=
  let teacher_output := world.getD p []
  let batch_center₀ := allReduce (world.map colSum)
  let batch_center₁ :=
    vsmul (1 / ((teacher_output.length : ℚ) * (world.length : ℚ))) batch_center₀
  let batch_center₂ := vsmul (1 / (teacher_output.length : ℚ)) batch_center₁
  vadd (vsmul momentum center) (vsmul (1 - momentum) batch_center₂)

/-! ### `DINOLoss.forward` pair accumulation (lines 176–188)

```python
total_loss = 0
n_loss_terms = 0
for iq, q in enumerate(teacher_out):          # teacher_out has 2 chunks
    for v in range(len(student_out)):          # student_out has ncrops chunks
        if v == iq:
            continue
        loss = torch.sum(-q * F.log_softmax(student_out[v], dim=-1), dim=-1)
        total_loss += loss.mean()
        n_loss_terms += 1
total_loss /= n_loss_terms
```

The per-pair per-row cross-entropy values are abstracted as
`L : ℕ → ℕ → List ℚ` (the claim is about which pairs are accumulated and
how the result is averaged, not about the softmax arithmetic). -/

/-- `tensor.mean()` for a vector of per-row values. -/
def listMean (l : List ℚ) : ℚ := l.sum / (l.length : ℚ)

/-- The double loop of `DINOLoss.forward`: running pair over
(total_loss, n_loss_terms), teacher chunk index `iq ∈ range 2`, student
chunk index `v ∈ range N`, skipping `v = iq`. -/
def dino_loss_accum (N : ℕ) (L : ℕ → ℕ → List ℚ) : ℚ × ℕ :=
  (List.range 2).foldl (fun acc iq =>
    (List.range N).foldl (fun acc2 v =>
      if v = iq then acc2 else (acc2.1 + listMean (L iq v), acc2.2 + 1)) acc)
    (0, 0)

/-- The scalar returned by `DINOLoss.forward`: accumulated total divided by
the number of accumulated pair terms. -/
def dino_total_loss (N : ℕ) (L : ℕ → ℕ → List ℚ) : ℚ :=
  (dino_loss_accum N L).1 / ((dino_loss_accum N L).2 : ℚ)

/-! ### `MultiCropWrapper.forward` (lines 50–69)

```python
idx_crops = torch.cumsum(torch.unique_consecutive(
    torch.tensor([inp.shape[-1] for inp in x]), return_counts=True)[1], 0)
start_idx, output = 0, torch.empty(0)
for end_idx in idx_crops:
    _out = self.backbone(torch.cat(x[start_idx: end_idx]))
    output = torch.cat((output, _out))
    start_idx = end_idx
return self.head(output)
```

A crop is `(len, batch)`: its last-dim length and its list of rows; rows
are abstract (`α`).  The backbone and head are per-row maps `f : α → β`,
`g : β → γ` (both act row-wise on a batched tensor).  The
`unique_consecutive(..., return_counts=True)[1]` counts are `runLengths`;
the cumsum + `x[start:end]` slicing loop is the structurally equivalent
take/drop recursion `chunks`: slice `[c₀]` is `x.take c₀`, and the rest of
the loop runs on `x.drop c₀` with the remaining counts. -/

/-- Run lengths of consecutive equal elements, accumulator form:
`cur` is the current run's value and `cnt` its count so far. -/
def runLengthsAux (cur : ℕ) (cnt : ℕ) : List ℕ → List ℕ
  | [] => [cnt]
  | b :: rest =>
    if b = cur then runLengthsAux cur (cnt + 1) rest
    else cnt :: runLengthsAux b 1 rest

/-- `torch.unique_consecutive(lens, return_counts=True)[1]`: the list of
run lengths of consecutive equal values. -/
def runLengths : List ℕ → List ℕ
  | [] => []
  | a :: rest => runLengthsAux a 1 rest

/-- The `x[start_idx:end_idx]` slices taken by the loop, one per count. -/
def chunks {σ : Type} : List ℕ → List σ → List (List σ)
  | [], _ => []
  | c :: cs, x => x.take c :: chunks cs (x.drop c)

/-- One representative value per run of consecutive equal elements
(accumulator form; companion of `runLengthsAux`). -/
def runValuesAux (cur : ℕ) : List ℕ → List ℕ
  | [] => [cur]
  | b :: rest =>
    if b = cur then runValuesAux cur rest
    else cur :: runValuesAux b rest

/-- `torch.unique_consecutive(lens, return_counts=True)[0]`: the value of
each run of consecutive equal elements, in order. -/
def runValues : List ℕ → List ℕ
  | [] => []
  | a :: rest => runValuesAux a rest

/-- "Crops of equal length are adjacent": each length occurs in a single
consecutive run, i.e. the per-run values are pairwise distinct.  This is
the wrapper's documented input discipline; it holds for the program's
globals-first order (two long global crops, then shorter local crops). -/
abbrev lengthsGrouped (lens : List ℕ) : Prop := (runValues lens).Nodup

/-- `MultiCropWrapper.forward` on a list of crops: group consecutive
same-length crops, concatenate each group's batches, run the backbone `f`
once per group, concatenate all group outputs, then run the head `g` on
the concatenation. -/
def multicrop_forward {α β γ : Type} (f : α → β) (g : β → γ)
    (crops : List (ℕ × List α)) : List γ :=
  let x := crops.map Prod.snd
  let counts := runLengths (crops.map Prod.fst)
  let output := ((chunks counts x).map (fun grp => grp.flatten.map f)).flatten
  output.map g

/-- Reference semantics: invoke the backbone and the head per crop and
concatenate the per-crop results in input order. -/
def percrop_forward {α β γ : Type} (f : α → β) (g : β → γ)
    (crops : List (ℕ × List α)) : List γ :=
  (crops.map (fun c => (c.2.map f).map g)).flatten

/-! ### Training-loop schedule indexing (`run`, lines 311–330)

```python
no_epoches = 301
for epoch in range(1, no_epoches+1):
    for batch_idx, sample in enumerate(tqdm(train_dataloader)):
        it = len(train_dataloader) * epoch + batch_idx
        param_group["lr"] = lr_schedule[it]
        ...
        loss = dino_loss(student_output, teacher_output, epoch)
```

and `DINOLoss.__init__` (lines 158–162):

```python
self.teacher_temp_schedule = np.concatenate((
    np.linspace(warmup_teacher_temp, teacher_temp, warmup_teacher_temp_epochs),
    np.ones(nepochs - warmup_teacher_temp_epochs) * teacher_temp))
```
-/

/-- `no_epoches = 301` from `run`. -/
def no_epoches : ℕ := 301

/-- The training loop's epoch values: `range(1, no_epoches+1)`. -/
def epoch_range : List ℕ := (List.range no_epoches).map (· + 1)

/-- `it = len(train_dataloader) * epoch + batch_idx`. -/
def global_it (steps_per_epoch epoch batch_idx : ℕ) : ℕ :=
  steps_per_epoch * epoch + batch_idx

/-- Modelled from the spec: `cosine_scheduler` lives in `utils/tools`,
which is not in the sources; per the spec, "the schedule length equals
epochs × steps_per_epoch" for both `lr_schedule` and `wd_schedule`. -/
def lr_schedule_length (steps_per_epoch : ℕ) : ℕ := no_epoches * steps_per_epoch

/-- Length of `DINOLoss.teacher_temp_schedule`: `np.linspace(_, _, w)` has
`w` entries and `np.ones(nepochs - w)` has `nepochs - w` entries. -/
def teacher_temp_schedule_length (warmup_teacher_temp_epochs nepochs : ℕ) : ℕ :=
  warmup_teacher_temp_epochs + (nepochs - warmup_teacher_temp_epochs)

/-! ### Teacher EMA update (`run`, lines 267–275 and 338–342)

```python
teacher.load_state_dict(student.state_dict())
set_requires_grad(teacher, False)
...
optimizer.step()                       # updates the student only
with torch.no_grad():
    m = 0.996
    for param_q, param_k in zip(student.parameters(), teacher.parameters()):
        param_k.data.mul_(m).add_((1 - m) * param_q.detach().data)
```

Parameters are flattened to `List ℚ`.  The optimizer step is an abstract
(step-indexed) map on the student parameters only; the teacher is touched
exclusively by the EMA line, which is what the embedding expresses. -/

/-- The constant momentum `m = 0.996` hardcoded in the loop body. -/
def m_teacher : ℚ := 996 / 1000

/-- One EMA write: `param_k.data.mul_(m).add_((1 - m) * param_q)`. -/
def ema_update (m : ℚ) (teacher student : List ℚ) : List ℚ :=
  List.zipWith (fun k q => k * m + (1 - m) * q) teacher student

/-- Student/teacher parameter trajectory: state after `n` training steps.
Step `n+1` first applies the optimizer to the student, then pushes the
updated student into the teacher by EMA with the constant `m_teacher`. -/
def train_params (optStep : ℕ → List ℚ → List ℚ) (s0 : List ℚ) :
    ℕ → List ℚ × List ℚ
  | 0 => (s0, s0)
  | n + 1 =>
    let st := train_params optStep s0 n
    let s' := optStep n st.1
    (s', ema_update m_teacher st.2 s')

/-! ### `_no_grad_trunc_normal_` / `trunc_normal_` (lines 71–109)

```python
if (mean < a - 2 * std) or (mean > b + 2 * std):
    warnings.warn("mean is more than 2 std from [a, b] ...")
with torch.no_grad():
    l = norm_cdf((a - mean) / std); u = norm_cdf((b - mean) / std)
    tensor.uniform_(2 * l - 1, 2 * u - 1)
    tensor.erfinv_()
    tensor.mul_(std * math.sqrt(2.))
    tensor.add_(mean)
    tensor.clamp_(min=a, max=b)
    return tensor
```

`erf`/`erfinv`/`sqrt` are transcendental, so the embedding takes the value
`y` produced by `tensor.erfinv_()` for one entry as the stage input (erfinv
is a bijection from (-1,1) onto all of ℝ, so every rational `y` is
attainable), and the float `math.sqrt(2.)` as a parameter `s2`; the
remaining stages — multiply by `std * s2`, add `mean`, clamp to `[a, b]` —
are embedded exactly.  `DINOHead._init_weights` (lines 135–139) calls
`trunc_normal_(m.weight, std=.02)`, so `mean=0, std=0.02` and the default
truncation bounds `a=-2., b=2.` apply. -/

/-- Call-site constants of `trunc_normal_(m.weight, std=.02)`:
`mean = 0.` (default). -/
def tn_mean : ℚ := 0

/-- `std = .02` from `DINOHead._init_weights`. -/
def tn_std : ℚ := 1 / 50

/-- Default truncation lower bound `a = -2.`. -/
def tn_a : ℚ := -2

/-- Default truncation upper bound `b = 2.`. -/
def tn_b : ℚ := 2

/-- `tensor.clamp_(min=a, max=b)` on one entry. -/
def clamp_ab (a b x : ℚ) : ℚ := min b (max a x)

/-- The post-erfinv stages of `_no_grad_trunc_normal_` on one tensor
entry: `y * (std * s2) + mean`, then clamp to `[a, b]`; `s2` stands for
`math.sqrt(2.)` and `y` for the entry after `tensor.erfinv_()`. -/
def trunc_normal_post (mean std a b s2 y : ℚ) : ℚ :=
  clamp_ab a b (y * (std * s2) + mean)

/-- The same stages at the `DINOHead._init_weights` call site. -/
def trunc_normal_head (s2 y : ℚ) : ℚ :=
  trunc_normal_post tn_mean tn_std tn_a tn_b s2 y

/-- The warning test of `_no_grad_trunc_normal_` (line 78):
`(mean < a - 2 * std) or (mean > b + 2 * std)`. -/
def tn_warns (mean std a b : ℚ) : Bool :=
  decide (mean < a - 2 * std) || decide (b + 2 * std < mean)

/-- `_no_grad_trunc_normal_` on one entry: the warning flag (the warning
is non-fatal: `warnings.warn`, not an exception) paired with the filled
value, which is computed and returned on both branches. -/
def no_grad_trunc_normal (mean std a b s2 y : ℚ) : Bool × ℚ :=
  (tn_warns mean std a b, trunc_normal_post mean std a b s2 y)

/-! ### Best-loss checkpointing (`run`, lines 310 and 344–349)

```python
lowest_train_loss = 10
for epoch in ...:
    ...
    whole_train_loss = train_loss / (batch_idx + 1)
    if whole_train_loss < lowest_train_loss:
        lowest_train_loss = whole_train_loss
        torch.save(student.backbone.state_dict(), ...)
        torch.save(teacher.backbone.state_dict(), ...)
```
-/

/-- The initial value of `lowest_train_loss`. -/
def lowest_init : ℚ := 10

/-- The value of `lowest_train_loss` after processing the given per-epoch
mean losses, starting from `lowest_init`. -/
def lowest_after (losses : List ℚ) : ℚ :=
  losses.foldl (fun low l => if l < low then l else low) lowest_init

/-- Whether the checkpoint pair is written at the end of epoch index `e`
(0-based) of the given per-epoch mean-loss sequence: the save fires iff
epoch `e`'s mean loss is below the running `lowest_train_loss`. -/
def saved_at (losses : List ℚ) (e : ℕ) : Bool :=
  decide (losses.getD e 0 < lowest_after (losses.take e))

/-! ### `DINOHead.__init__` MLP architecture (lines 112–128)

```python
nlayers = max(nlayers, 1)
if nlayers == 1:
    self.mlp = nn.Linear(in_dim, bottleneck_dim)
else:
    layers = [nn.Linear(in_dim, hidden_dim)]
    if use_bn: layers.append(nn.BatchNorm1d(hidden_dim))
    layers.append(nn.GELU())
    for _ in range(nlayers - 2):
        layers.append(nn.Linear(hidden_dim, hidden_dim))
        if use_bn: layers.append(nn.BatchNorm1d(hidden_dim))
        layers.append(nn.GELU())
    layers.append(nn.Linear(hidden_dim, bottleneck_dim))
    self.mlp = nn.Sequential(*layers)
```
-/

/-- One layer of the `DINOHead` MLP. -/
inductive NNLayer : Type
  | linear (i o : ℕ)
  | batchnorm (d : ℕ)
  | gelu
deriving DecidableEq

/-- The layer list built by `DINOHead.__init__` for its `mlp` attribute;
`nlayers : ℤ` so that zero and negative requests are representable
(Python ints are unbounded). -/
def dinohead_mlp (in_dim hidden_dim bottleneck_dim : ℕ) (use_bn : Bool)
    (nlayers : ℤ) : List NNLayer :=
  let n := max nlayers 1
  if n = 1 then [NNLayer.linear in_dim bottleneck_dim]
  else
    ([NNLayer.linear in_dim hidden_dim]
      ++ (if use_bn then [NNLayer.batchnorm hidden_dim] else [])
      ++ [NNLayer.gelu])
    ++ (List.replicate (n - 2).toNat
        ([NNLayer.linear hidden_dim hidden_dim]
          ++ (if use_bn then [NNLayer.batchnorm hidden_dim] else [])
          ++ [NNLayer.gelu])).flatten
    ++ [NNLayer.linear hidden_dim bottleneck_dim]

/-! ### `DINOHead.forward` bottleneck normalisation (lines 141–145)

```python
def forward(self, x):
    x = self.mlp(x)
    x = nn.functional.normalize(x, dim=-1, p=2)
    x = self.last_layer(x)
    return x
```

`F.normalize(x, dim=-1, p=2)` divides each feature row by
`max(‖row‖₂, eps)` with the default `eps = 1e-12`.  Rows are `List ℝ`
(the L2 norm needs `Real.sqrt`); the MLP is an abstract map on rows. -/

/-- The default `eps = 1e-12` of `torch.nn.functional.normalize`. -/
noncomputable def fnormalize_eps : ℝ := 1 / 10 ^ 12

/-- Euclidean norm of a feature row. -/
noncomputable def l2norm (v : List ℝ) : ℝ :=
  Real.sqrt ((v.map fun x => x * x).sum)

/-- `F.normalize(v, dim=-1, p=2)` on one row. -/
noncomputable def fnormalize (v : List ℝ) : List ℝ :=
  v.map fun x => x / max (l2norm v) fnormalize_eps

/-- The bottleneck vector of `DINOHead.forward` for one input row, before
`self.last_layer`: the MLP output row, L2-normalised. -/
noncomputable def dinohead_bottleneck (mlp : List ℝ → List ℝ)
    (x : List ℝ) : List ℝ :=
  fnormalize (mlp x)

/-! ## Helper lemmas -/

/-- Composing two scalar multiplications multiplies the scalars. -/
theorem vsmul_vsmul (a b : ℚ) (v : List ℚ) :
    vsmul a (vsmul b v) = vsmul (a * b) v := by
  simp [vsmul, List.map_map, Function.comp, mul_assoc]

/-- The inner loop of `DINOLoss.forward` adds one mean and one count per
index different from `iq`. -/
theorem dino_inner_foldl (iq : ℕ) (f : ℕ → ℚ) :
    ∀ (l : List ℕ) (acc : ℚ × ℕ),
      l.foldl (fun acc2 v =>
          if v = iq then acc2 else (acc2.1 + f v, acc2.2 + 1)) acc
        = (acc.1 + ((l.filter (fun v => v ≠ iq)).map f).sum,
           acc.2 + (l.filter (fun v => v ≠ iq)).length)
  | [], acc => by simp
  | v :: rest, acc => by
    by_cases hv : v = iq
    · simp only [List.foldl_cons, hv, if_pos rfl, List.filter_cons]
      simp [dino_inner_foldl iq f rest acc]
    · simp only [List.foldl_cons, if_neg hv, List.filter_cons]
      simp only [dino_inner_foldl iq f rest]
      simp [hv, add_assoc]
      omega

/-- Filtering one in-range value out of `range N` leaves `N - 1` indices. -/
theorem filter_ne_range_length (N : ℕ) :
    ∀ iq : ℕ, iq < N →
      ((List.range N).filter (fun v => v ≠ iq)).length = N - 1 := by
  induction N with
  | zero => exact fun iq h => absurd h (Nat.not_lt_zero iq)
  | succ N ih =>
    intro iq h
    rw [List.range_succ, List.filter_append, List.length_append]
    by_cases hiq : iq = N
    · have hall : (List.range N).filter (fun v => v ≠ iq) = List.range N := by
        rw [List.filter_eq_self]
        intro a ha
        have haN : a < N := List.mem_range.mp ha
        simp only [decide_eq_true_eq]
        omega
      have hone : (List.filter (fun v => v ≠ iq) [N]) = [] := by
        simp [List.filter_cons, hiq]
      rw [hall, hone]
      simp
    · have hlt : iq < N := by omega
      have hone : (List.filter (fun v => v ≠ iq) [N]) = [N] := by
        simp only [List.filter_cons, List.filter_nil]
        simp [Ne.symm hiq]
      rw [ih iq hlt, hone]
      simp
      omega

/-! ## Claim C1 -/

/-- C1: in `DINOLoss.update_center`, the all-reduced column sum of
`teacher_output` is scaled by `1/(local_rows² × world_size)` — the two
successive divisions by `len(teacher_output) * world_size` and by
`len(teacher_output)` compose to exactly that factor — and the new center
is `old_center × momentum + batch_center × (1 − momentum)`; the update is
a pure value computation (`@torch.no_grad()`), and this holds whenever the
local `teacher_output` has at least one row. -/
theorem C1_update_center_scale (m : ℚ) (world : List (List (List ℚ)))
    (p : ℕ) (center : List ℚ) (hrows : 1 ≤ (world.getD p []).length) :
    update_center m world p center =
      vadd (vsmul m center)
        (vsmul ((1 - m) *
            (1 / (((world.getD p []).length : ℚ) ^ 2 * (world.length : ℚ))))
          (allReduce (world.map colSum))) := by
  have hworld : world ≠ [] := by
    intro hw
    rw [hw] at hrows
    simp [List.getD] at hrows
  have hr : ((world.getD p []).length : ℚ) ≠ 0 :=
    Nat.cast_ne_zero.mpr (by omega)
  have hW : ((world.length : ℚ)) ≠ 0 :=
    Nat.cast_ne_zero.mpr (fun h0 => hworld (List.length_eq_zero.mp h0))
  simp only [update_center, vsmul_vsmul]
  congr 1
  congr 1
  field_simp
  ring

/-- A concrete one-process world: a single 2×2 teacher output matrix. -/
def world₁ : List (List (List ℚ)) := [[[2, 4], [4, 8]]]

/-- Witness for C1: one process, a 2×2 teacher output, momentum 1/2. -/
theorem C1_witness :
    1 ≤ ((world₁.getD 0 []).length) ∧
    update_center (1/2) world₁ 0 [1, 1] =
      vadd (vsmul (1/2) [1, 1])
        (vsmul ((1 - 1/2) *
            (1 / (((world₁.getD 0 []).length : ℚ) ^ 2 * (world₁.length : ℚ))))
          (allReduce (world₁.map colSum))) :=
  ⟨by decide, C1_update_center_scale (1/2) world₁ 0 [1, 1] (by decide)⟩

/-! ## Claim C2 -/

/-- C2: for every crop count `N ≥ 2`, `DINOLoss.forward` accumulates one
per-pair mean term for exactly the pairs `(iq ∈ {0,1}, v ∈ {0..N-1})` with
`v ≠ iq` — that is `2N - 2` pairs — and returns the sum of those per-pair
means divided by `2N - 2`. -/
theorem C2_pair_accumulation (N : ℕ) (L : ℕ → ℕ → List ℚ) (hN : 2 ≤ N) :
    (dino_loss_accum N L).2 = 2 * N - 2 ∧
    dino_total_loss N L =
      (((List.range 2).map (fun iq =>
          (((List.range N).filter (fun v => v ≠ iq)).map
            (fun v => listMean (L iq v))).sum)).sum) / ((2 * N - 2 : ℕ) : ℚ) := by
  have h0 : (0 : ℕ) < N := by omega
  have h1 : (1 : ℕ) < N := by omega
  have hrange2 : List.range 2 = [0, 1] := by decide
  have hacc : dino_loss_accum N L =
      ((((List.range N).filter (fun v => v ≠ 0)).map
          (fun v => listMean (L 0 v))).sum
        + (((List.range N).filter (fun v => v ≠ 1)).map
          (fun v => listMean (L 1 v))).sum,
       ((List.range N).filter (fun v => v ≠ 0)).length
        + ((List.range N).filter (fun v => v ≠ 1)).length) := by
    rw [dino_loss_accum, hrange2]
    simp only [List.foldl_cons, List.foldl_nil]
    rw [dino_inner_foldl 0 (fun v => listMean (L 0 v)) (List.range N) (0, 0)]
    rw [dino_inner_foldl 1 (fun v => listMean (L 1 v)) (List.range N)]
    simp [add_assoc]
  have hlen0 := filter_ne_range_length N 0 h0
  have hlen1 := filter_ne_range_length N 1 h1
  constructor
  · simp only [hacc, hlen0, hlen1]
    omega
  · have hden : ((List.range N).filter (fun v => v ≠ 0)).length
        + ((List.range N).filter (fun v => v ≠ 1)).length = 2 * N - 2 := by
      rw [hlen0, hlen1]
      omega
    rw [dino_total_loss, hacc]
    simp only [hrange2, List.map_cons, List.map_nil, List.sum_cons,
      List.sum_nil, add_zero]
    rw [hden]

/-- Witness for C2: `N = 2` with a concrete per-pair table; the loop
accumulates exactly the 2 valid pairs and divides by 2. -/
theorem C2_witness :
    (dino_loss_accum 2 (fun iq v => [(iq : ℚ) + v, 1])).2 = 2 * 2 - 2 ∧
    dino_total_loss 2 (fun iq v => [(iq : ℚ) + v, 1]) =
      (((List.range 2).map (fun iq =>
          (((List.range 2).filter (fun v => v ≠ iq)).map
            (fun v => listMean ([(iq : ℚ) + v, 1]))).sum)).sum)
        / ((2 * 2 - 2 : ℕ) : ℚ) :=
  C2_pair_accumulation 2 (fun iq v => [(iq : ℚ) + v, 1]) (by decide)

/-! ## Claim C3 -/

/-- The run lengths of a list sum to its length (accumulator form). -/
theorem runLengthsAux_sum (l : List ℕ) :
    ∀ cur cnt, (runLengthsAux cur cnt l).sum = cnt + l.length := by
  induction l with
  | nil => intro cur cnt; simp [runLengthsAux]
  | cons b rest ih =>
    intro cur cnt
    by_cases hb : b = cur
    · rw [runLengthsAux, if_pos hb, ih cur (cnt + 1)]
      simp
      omega
    · rw [runLengthsAux, if_neg hb]
      simp [ih b 1]
      omega

/-- The counts returned by `unique_consecutive` sum to the list length. -/
theorem runLengths_sum (l : List ℕ) : (runLengths l).sum = l.length := by
  cases l with
  | nil => rfl
  | cons a rest =>
    rw [runLengths, runLengthsAux_sum rest a 1]
    simp
    omega

/-- Slicing by counts that sum to the length and re-concatenating restores
the original list. -/
theorem chunks_flatten {σ : Type} :
    ∀ (cs : List ℕ) (x : List σ), cs.sum = x.length →
      (chunks cs x).flatten = x := by
  intro cs
  induction cs with
  | nil =>
    intro x h
    have : x = [] := List.length_eq_zero.mp (by simpa using h.symm)
    simp [chunks, this]
  | cons c cs ih =>
    intro x h
    have hc : c ≤ x.length := by
      have := List.sum_cons (a := c) (l := cs) ▸ h
      omega
    have hdrop : cs.sum = (x.drop c).length := by
      rw [List.length_drop]
      have := List.sum_cons (a := c) (l := cs) ▸ h
      omega
    rw [chunks, List.flatten_cons, ih (x.drop c) hdrop, List.take_append_drop]

/-- C3: for every non-empty crop list ordered so that crops of equal
length are adjacent (in particular the program's globals-first order, with
the two long global crops before the shorter local crops),
`MultiCropWrapper.forward` returns exactly the per-crop result: row count
is the sum of per-crop batch sizes, rows appear in input order, and
grouping same-length crops into one merged backbone call does not change
any per-row output. -/
theorem C3_multicrop_refines_percrop {α β γ : Type} (f : α → β) (g : β → γ)
    (crops : List (ℕ × List α)) (hne : crops ≠ [])
    (hgrouped : lengthsGrouped (crops.map Prod.fst)) :
    multicrop_forward f g crops = percrop_forward f g crops ∧
    (multicrop_forward f g crops).length =
      (crops.map (fun c => c.2.length)).sum := by
  have hsum : (runLengths (crops.map Prod.fst)).sum
      = (crops.map Prod.snd).length := by
    rw [runLengths_sum]
    simp
  have hgroups : (chunks (runLengths (crops.map Prod.fst))
      (crops.map Prod.snd)).flatten = crops.map Prod.snd :=
    chunks_flatten _ _ hsum
  have hback : ∀ (gs : List (List (List α))),
      (gs.map (fun grp => grp.flatten.map f)).flatten
        = (gs.map List.flatten).flatten.map f := by
    intro gs
    rw [List.map_flatten, List.map_map]
    rfl
  have key : ∀ (x : List (List α)),
      (x.map (fun b => (b.map f).map g)).flatten = (x.flatten.map f).map g := by
    intro x
    rw [List.map_flatten, List.map_flatten, List.map_map]
    rfl
  have lhs_eq : multicrop_forward f g crops
      = ((crops.map Prod.snd).flatten.map f).map g := by
    simp only [multicrop_forward]
    rw [hback, ← List.flatten_flatten, hgroups]
  have rhs_eq : percrop_forward f g crops
      = ((crops.map Prod.snd).flatten.map f).map g := by
    rw [percrop_forward]
    have hmm : crops.map (fun c => (c.2.map f).map g)
        = (crops.map Prod.snd).map (fun b => (b.map f).map g) := by
      rw [List.map_map]
      rfl
    rw [hmm, key]
  have hmain : multicrop_forward f g crops = percrop_forward f g crops := by
    rw [lhs_eq, rhs_eq]
  refine ⟨hmain, ?_⟩
  rw [hmain, percrop_forward, List.length_flatten, List.map_map]
  congr 1
  apply List.map_congr_left
  intro c hc
  simp

/-- A concrete grouped crop list in the program's globals-first order:
two global crops of length 250, then a shorter local crop of length 100
(descending, not ascending — only adjacency of equal lengths matters). -/
def crops₁ : List (ℕ × List ℚ) := [(250, [1, 2]), (250, [10]), (100, [7])]

/-- Witness for C3: the two length-250 global crops are merged into one
backbone call, yet the result matches the per-crop invocation row for
row. -/
theorem C3_witness :
    crops₁ ≠ [] ∧
    lengthsGrouped (crops₁.map Prod.fst) ∧
    (multicrop_forward (fun x => x + 1) (fun x => x * 2) crops₁
        = percrop_forward (fun x => x + 1) (fun x => x * 2) crops₁ ∧
      (multicrop_forward (fun x => x + 1) (fun x => x * 2) crops₁).length
        = (crops₁.map (fun c => c.2.length)).sum) :=
  ⟨by decide, by decide,
    C3_multicrop_refines_percrop (fun x => x + 1) (fun x => x * 2) crops₁
      (by decide) (by decide)⟩

/-! ## Claim C4 -/

/-- C4 fails on the code: the epoch loop is `range(1, no_epoches+1)`, so
in the final epoch (`epoch = 301`) the very first step reads
`lr_schedule[301 * steps_per_epoch]`, one past the end of a schedule of
length `no_epoches * steps_per_epoch`, and the loss reads
`teacher_temp_schedule[301]` in a schedule of length 301.  This theorem
evaluates the embedded indices at that failing input (steps_per_epoch = 1,
batch_idx = 0): epoch 301 is in the loop's range, yet both reads are out
of bounds. -/
theorem C4_schedule_index_out_of_bounds :
    301 ∈ epoch_range ∧
    ¬ global_it 1 301 0 < lr_schedule_length 1 ∧
    ¬ 301 < teacher_temp_schedule_length 30 no_epoches := by
  decide

/-! ## Claim C5 -/

/-- `getD` of `zipWith` at an index below both lengths applies `f` to the
two `getD` values. -/
theorem getD_zipWith (f : ℚ → ℚ → ℚ) :
    ∀ (a b : List ℚ) (i : ℕ), i < a.length → i < b.length →
      (List.zipWith f a b).getD i 0 = f (a.getD i 0) (b.getD i 0) := by
  intro a
  induction a with
  | nil => intro b i h1 _; simp at h1
  | cons x xs ih =>
    intro b i h1 h2
    cases b with
    | nil => simp at h2
    | cons y ys =>
      cases i with
      | zero => simp [List.getD]
      | succ j =>
        simp only [List.zipWith_cons_cons, List.getD_cons_succ]
        exact ih ys j (by simpa using h1) (by simpa using h2)

/-- The student parameter vector keeps its length along the trajectory. -/
theorem train_params_fst_length (o : ℕ → List ℚ → List ℚ) (s0 : List ℚ)
    (hlen : ∀ k s, (o k s).length = s.length) :
    ∀ n, (train_params o s0 n).1.length = s0.length := by
  intro n
  induction n with
  | zero => rfl
  | succ n ih => rw [train_params, hlen]; exact ih

/-- The teacher parameter vector keeps its length along the trajectory. -/
theorem train_params_snd_length (o : ℕ → List ℚ → List ℚ) (s0 : List ℚ)
    (hlen : ∀ k s, (o k s).length = s.length) :
    ∀ n, (train_params o s0 n).2.length = s0.length := by
  intro n
  induction n with
  | zero => rfl
  | succ n ih =>
    rw [train_params]
    simp only [ema_update, List.length_zipWith, hlen,
      train_params_fst_length o s0 hlen n, ih]
    omega

/-- C5: teacher parameters equal student parameters at training start, and
after each step every teacher parameter equals
`teacher * m + (1 - m) * student` elementwise, where the student is the
post-optimizer-step value and `m = m_teacher = 0.996` is the same constant
at every step; in the trajectory this EMA write is the only transformation
ever applied to the teacher (the optimizer `o` acts on the student
component only). -/
theorem C5_teacher_momentum (o : ℕ → List ℚ → List ℚ) (s0 : List ℚ)
    (hlen : ∀ k s, (o k s).length = s.length) :
    (train_params o s0 0).2 = s0 ∧
    ∀ n i, i < s0.length →
      (train_params o s0 (n + 1)).2.getD i 0
        = (train_params o s0 n).2.getD i 0 * m_teacher
          + (1 - m_teacher) * (train_params o s0 (n + 1)).1.getD i 0 := by
  constructor
  · rfl
  · intro n i hi
    have h2 : i < (train_params o s0 n).2.length := by
      rw [train_params_snd_length o s0 hlen n]; exact hi
    have h1 : i < (train_params o s0 (n + 1)).1.length := by
      rw [train_params_fst_length o s0 hlen (n + 1)]; exact hi
    conv_lhs => rw [train_params]
    have hfst : (train_params o s0 (n + 1)).1
        = o n (train_params o s0 n).1 := by
      rw [train_params]
    rw [hfst] at h1 ⊢
    exact getD_zipWith (fun k q => k * m_teacher + (1 - m_teacher) * q)
      (train_params o s0 n).2 (o n (train_params o s0 n).1) i h2 h1

/-- Witness for C5: a two-parameter model whose optimizer step adds 1 to
every parameter; checked at step 1, index 0. -/
theorem C5_witness :
    (∀ k s, ((fun (_ : ℕ) (s : List ℚ) => s.map (· + 1)) k s).length
      = s.length) ∧
    (train_params (fun _ s => s.map (· + 1)) [2, 3] 0).2 = [2, 3] ∧
    (train_params (fun _ s => s.map (· + 1)) [(2 : ℚ), 3] 1).2.getD 0 0
      = (train_params (fun _ s => s.map (· + 1)) [(2 : ℚ), 3] 0).2.getD 0 0
          * m_teacher
        + (1 - m_teacher)
          * (train_params (fun _ s => s.map (· + 1)) [(2 : ℚ), 3] 1).1.getD 0 0 :=
  ⟨fun k s => by simp,
   (C5_teacher_momentum (fun _ s => s.map (· + 1)) [2, 3]
      (fun k s => by simp)).1,
   (C5_teacher_momentum (fun _ s => s.map (· + 1)) [(2 : ℚ), 3]
      (fun k s => by simp)).2 0 0 (by decide)⟩

/-! ## Claim C6 -/

/-- C6 counterexample: at the `DINOHead` call site the clamp bounds are
the absolute defaults `a = -2, b = 2`, not `mean ± 2·std = ±0.04`. The
pre-clamp value is `erfinv(sample) * (std * sqrt 2) + mean`; `erfinv` maps
`(-1, 1)` onto all of ℝ, so `y = 10/3` (with `3/2` standing for
`sqrt 2`) is attainable, and the clamp passes the resulting `0.1` through
unchanged: a produced value outside `[-0.04, 0.04]`, and the code's upper
truncation bound differs from `mean + 2·std`. -/
theorem C6_clamp_is_absolute :
    trunc_normal_head (3/2) (10/3) = 1/10 ∧
    ¬ |trunc_normal_head (3/2) (10/3)| ≤ 2 * tn_std ∧
    tn_b ≠ tn_mean + 2 * tn_std := by
  have hpre : ((10 : ℚ)/3 * (1/50 * (3/2)) + 0) = 1/10 := by norm_num
  have hv : trunc_normal_head (3/2) (10/3) = 1/10 := by
    simp only [trunc_normal_head, trunc_normal_post, clamp_ab, tn_a, tn_b,
      tn_mean, tn_std]
    rw [hpre, max_eq_right (by norm_num), min_eq_right (by norm_num)]
  refine ⟨hv, ?_, ?_⟩
  · rw [hv, abs_of_pos (by norm_num)]
    simp only [tn_std]
    norm_num
  · simp only [tn_b, tn_mean, tn_std]
    norm_num

/-- C6 (amended): the initializer fills weights by an inverse-CDF
transform of a uniform sample with mean 0 and standard deviation 0.02,
but its truncation interval is the absolute `[a, b] = [-2, 2]` — that is,
`mean ± 100` standard deviations — so every produced value lies in
`[-2, 2]`, not necessarily in `[-0.04, 0.04]`. -/
theorem C6_trunc_range :
    (∀ s2 y : ℚ, tn_a ≤ trunc_normal_head s2 y ∧ trunc_normal_head s2 y ≤ tn_b) ∧
    tn_a = tn_mean - 100 * tn_std ∧ tn_b = tn_mean + 100 * tn_std := by
  refine ⟨fun s2 y => ⟨?_, ?_⟩, ?_, ?_⟩
  · exact le_min (by norm_num [tn_a, tn_b]) (le_max_left _ _)
  · exact min_le_left _ _
  · simp only [tn_a, tn_mean, tn_std]
    norm_num
  · simp only [tn_b, tn_mean, tn_std]
    norm_num

/-! ## Claim C9 -/

/-- C9: `_no_grad_trunc_normal_` raises its (non-fatal) warning flag if
and only if the requested mean lies more than 2 standard deviations
outside `[a, b]`, and in either case it still fills the tensor entry and
returns it: the returned value is the full transform of the sample,
independent of the flag. -/
theorem C9_warning_iff (mean std a b s2 y : ℚ) :
    ((no_grad_trunc_normal mean std a b s2 y).1 = true ↔
      (mean < a - 2 * std ∨ b + 2 * std < mean)) ∧
    (no_grad_trunc_normal mean std a b s2 y).2
      = trunc_normal_post mean std a b s2 y := by
  constructor
  · simp [no_grad_trunc_normal, tn_warns]
  · rfl

/-! ## Claim C10 -/

/-- C10: for every requested `nlayers ≤ 1` (zero and negatives included)
`DINOHead.__init__` builds exactly the `nlayers = 1` architecture: a
single linear map from `in_dim` to `bottleneck_dim` with no hidden
layers — `nlayers = max(nlayers, 1)` silently clamps the request. -/
theorem C10_nlayers_clamped (in_dim hidden_dim bottleneck_dim : ℕ)
    (use_bn : Bool) (nlayers : ℤ) (hn : nlayers ≤ 1) :
    dinohead_mlp in_dim hidden_dim bottleneck_dim use_bn nlayers
      = dinohead_mlp in_dim hidden_dim bottleneck_dim use_bn 1 ∧
    dinohead_mlp in_dim hidden_dim bottleneck_dim use_bn nlayers
      = [NNLayer.linear in_dim bottleneck_dim] := by
  have hmax : max nlayers 1 = 1 := max_eq_right hn
  constructor
  · simp [dinohead_mlp, hmax]
  · simp [dinohead_mlp, hmax]

/-- Witness for C10: `nlayers = 0` (with batch norm requested) still
yields the single direct linear layer. -/
theorem C10_witness :
    (0 : ℤ) ≤ 1 ∧
    (dinohead_mlp 384 512 128 true 0 = dinohead_mlp 384 512 128 true 1 ∧
      dinohead_mlp 384 512 128 true 0 = [NNLayer.linear 384 128]) :=
  ⟨by decide, C10_nlayers_clamped 384 512 128 true 0 (by decide)⟩

/-! ## Claim C7 -/

/-- The sum of squares under `l2norm` is nonnegative. -/
theorem sq_sum_nonneg (v : List ℝ) : 0 ≤ (v.map fun x => x * x).sum := by
  apply List.sum_nonneg
  intro x hx
  obtain ⟨y, _, rfl⟩ := List.mem_map.mp hx
  exact mul_self_nonneg y

/-- C7 counterexample: if the MLP output row is all-zero, `F.normalize`
divides 0 by `max(0, eps) = eps` and returns the zero vector, whose L2
norm is 0, not 1 — the claim's "for any input including an all-zero MLP
output" fails. -/
theorem C7_zero_row_not_unit :
    l2norm (dinohead_bottleneck (fun _ => [0, 0]) []) = 0 ∧ (0 : ℝ) ≠ 1 := by
  constructor
  · have hz : dinohead_bottleneck (fun _ => ([0, 0] : List ℝ)) [] = [0, 0] := by
      simp [dinohead_bottleneck, fnormalize]
    rw [hz]
    simp [l2norm]
  · norm_num

/-- C7 (amended): every MLP output row whose L2 norm is at least the
`F.normalize` epsilon (`1e-12`) — in particular every row of norm ≥ eps,
but not the all-zero row — is mapped by the bottleneck normalization to a
vector of exactly unit L2 norm. -/
theorem C7_bottleneck_unit_norm (mlp : List ℝ → List ℝ) (x : List ℝ)
    (h : fnormalize_eps ≤ l2norm (mlp x)) :
    l2norm (dinohead_bottleneck mlp x) = 1 := by
  set v := mlp x with hv
  have heps : (0 : ℝ) < fnormalize_eps := by
    rw [fnormalize_eps]; norm_num
  have hc : (0 : ℝ) < l2norm v := lt_of_lt_of_le heps h
  have hmax : max (l2norm v) fnormalize_eps = l2norm v := max_eq_left h
  have hs : (0 : ℝ) ≤ (v.map fun x => x * x).sum := sq_sum_nonneg v
  have hsqrt : Real.sqrt ((v.map fun x => x * x).sum) = l2norm v := rfl
  rw [dinohead_bottleneck, ← hv, fnormalize, hmax, l2norm, List.map_map]
  have hcomp : ((fun x => x * x) ∘ fun x => x / l2norm v)
      = fun x => (x * x) * ((l2norm v * l2norm v)⁻¹) := by
    funext t
    rw [Function.comp]
    rw [div_mul_div_comm]
    rw [div_eq_mul_inv]
  rw [hcomp, List.sum_map_mul_right]
  rw [Real.sqrt_mul hs, Real.sqrt_inv, Real.sqrt_mul_self (le_of_lt hc)]
  rw [hsqrt]
  exact mul_inv_cancel₀ (ne_of_gt hc)

/-- Witness for C7: the MLP is the identity and the input row is `[1, 0]`,
whose norm 1 exceeds eps; the normalized row has unit norm. -/
theorem C7_witness :
    fnormalize_eps ≤ l2norm [1, 0] ∧
    l2norm (dinohead_bottleneck (fun r => r) [1, 0]) = 1 :=
  ⟨by
    rw [show l2norm [1, 0] = 1 by simp [l2norm]]
    rw [fnormalize_eps]
    norm_num,
   C7_bottleneck_unit_norm (fun r => r) [1, 0] (by
    rw [show l2norm ((fun (r : List ℝ) => r) [1, 0]) = 1 by simp [l2norm]]
    rw [fnormalize_eps]
    norm_num)⟩

/-! ## Claim C8 -/

/-- Unfolding the running-minimum fold of `lowest_train_loss`: a value is
below the fold result iff it is below the seed and below every element. -/
theorem lt_foldl_lowest (x : ℚ) :
    ∀ (L : List ℚ) (a : ℚ),
      (x < L.foldl (fun low l => if l < low then l else low) a ↔
        x < a ∧ ∀ l ∈ L, x < l) := by
  intro L
  induction L with
  | nil => intro a; simp
  | cons l₀ rest ih =>
    intro a
    rw [List.foldl_cons, ih]
    by_cases h0 : l₀ < a
    · rw [if_pos h0]
      constructor
      · rintro ⟨hx, hall⟩
        exact ⟨lt_trans hx h0, fun l hl => by
          rcases List.mem_cons.mp hl with h | h
          · rw [h]; exact hx
          · exact hall l h⟩
      · rintro ⟨hxa, hall⟩
        exact ⟨hall l₀ (List.mem_cons_self l₀ rest),
          fun l hl => hall l (List.mem_cons_of_mem l₀ hl)⟩
    · rw [if_neg h0]
      constructor
      · rintro ⟨hx, hall⟩
        refine ⟨hx, fun l hl => ?_⟩
        rcases List.mem_cons.mp hl with h | h
        · rw [h]; exact lt_of_lt_of_le hx (le_of_not_lt h0)
        · exact hall l h
      · rintro ⟨hxa, hall⟩
        exact ⟨hxa, fun l hl => hall l (List.mem_cons_of_mem l₀ hl)⟩

/-- C8 counterexample: `lowest_train_loss` starts at 10, not at infinity,
so an epoch-0 mean loss of 50 — strictly lower than every (zero) previous
epoch's loss, the claim's condition being vacuously true — is *not*
persisted. -/
theorem C8_large_loss_not_saved :
    saved_at [(50 : ℚ)] 0 = false ∧
    ∀ l ∈ ([(50 : ℚ)].take 0), (50 : ℚ) < l := by
  constructor
  · rw [saved_at]
    simp [lowest_after, lowest_init]
    norm_num
  · intro l hl
    simp at hl

/-- C8 (amended): the backbone snapshots are persisted at the end of epoch
`e` iff epoch `e`'s mean loss is strictly lower than the initial threshold
10 *and* strictly lower than every previous epoch's mean loss — not merely
lower than all previous losses. -/
theorem C8_checkpoint_condition (losses : List ℚ) (e : ℕ)
    (he : e < losses.length) :
    saved_at losses e = true ↔
      (losses.getD e 0 < lowest_init ∧
        ∀ l ∈ losses.take e, losses.getD e 0 < l) := by
  rw [saved_at, decide_eq_true_eq, lowest_after, lt_foldl_lowest]

/-- Witness for C8: losses `[5, 3]`, epoch 1: the save condition holds iff
`3 < 10` and `3 < 5`. -/
theorem C8_witness :
    1 < [(5 : ℚ), 3].length ∧
    (saved_at [(5 : ℚ), 3] 1 = true ↔
      ([(5 : ℚ), 3].getD 1 0 < lowest_init ∧
        ∀ l ∈ [(5 : ℚ), 3].take 1, [(5 : ℚ), 3].getD 1 0 < l)) :=
  ⟨by decide, C8_checkpoint_condition [(5 : ℚ), 3] 1 (by decide)⟩

end DINOSignal
